import Mathlib

/-!
# wkhtmltopdf HTTP front end: request-to-subprocess translation

A shallow embedding of `internal/internal.go`.

* Go strings and byte slices are lists of characters (`Str`).
* `url.Values` (a Go map from field name to its list of values) is the list of
  its entries in the order in which the `range` statement visits them.
* An `error` is represented by its message (`err.Error()`).
* The operating system (temporary files, the subprocess) is an explicit
  parameter `OS` together with an explicit table of files that is threaded
  through the code.
* A run-time panic is the result `none`.
* The handlers are the functions registered in the `ServeMux`; the wrappers that
  `Run` puts around the mux (`http.TimeoutHandler`, `logRequest`), logging and
  the server loop are not part of the embedding.
-/

namespace Wkhtmltopdf

/-! ## Strings and form values -/

/-- Go strings and byte slices. -/
abbrev Str := List Char

/-- The type `url.Values`: every entry is a field name with the values submitted
for it, listed in the iteration order of `range`. -/
abbrev Values := List (Str × List Str)

/-- The method `url.Values.Get`: the first value of the field `key`, or the
empty string when the field is absent or has no value. -/
def Values.Get : Values → Str → Str
  | [], _ => []
  | (k, vs) :: rest, key =>
    if k = key then
      match vs with
      | [] => []
      | v :: _ => v
    else Values.Get rest key

/-! ## The regular expression `options\[(.+)\]` -/

/-- The `.` of Go's regexp syntax without the `s` flag: any character except
line feed. -/
def dot (c : Char) : Bool := c != '\n'

/-- Consumes the literal `lit` at the start of `s`; `none` when `s` does not
start with it. -/
def dropLit : Str → Str → Option Str
  | [], s => some s
  | _ :: _, [] => none
  | l :: ls, c :: cs => if l = c then dropLit ls cs else none

/-- The part `(.+)\]` of the pattern matched at the start of `s`: the capture is
a non-empty run of `dot` characters followed by `]`. The repetition is greedy, so
the longer capture is tried first. -/
def groupThenBracket : Str → Option Str
  | [] => none
  | c :: cs =>
    if dot c then
      match groupThenBracket cs with
      | some g => some (c :: g)
      | none => if cs.head? = some ']' then some [c] else none
    else none

/-- The whole pattern `options\[(.+)\]` matched at the start of `s`; the result
is the text of capture group 1. -/
def optionsRe2At (s : Str) : Option Str :=
  match dropLit "options[".toList s with
  | some rest => groupThenBracket rest
  | none => none

/-- Capture group 1 of `optionsRe2.FindStringSubmatch(s)`: the pattern is not
anchored, so the leftmost position at which it matches is used; `none` when it
matches nowhere. -/
def optionsRe2FindStringSubmatch1 : Str → Option Str
  | [] => none
  | c :: cs =>
    match optionsRe2At (c :: cs) with
    | some g => some g
    | none => optionsRe2FindStringSubmatch1 cs

/-- The call `optionsRe2.MatchString(s)`. -/
def optionsRe2MatchString (s : Str) : Bool :=
  (optionsRe2FindStringSubmatch1 s).isSome

/-! ## `Application.argsFromValues` -/

/-- One iteration of the loop of `argsFromValues` for the entry `key, value`,
starting from the slice `result`. Indexing `value[0]` of an empty slice panics. -/
def argsFromValuesStep (result : List Str) (kv : Str × List Str) : Option (List Str) :=
  if optionsRe2MatchString kv.1 then
    match optionsRe2FindStringSubmatch1 kv.1 with
    | none => none
    | some name =>
      let result := result ++ ["--".toList ++ name]
      match kv.2 with
      | [] => none
      | v0 :: _ => if v0.length > 0 then some (result ++ [v0]) else some result
  else some result

/-- The method `Application.argsFromValues`: the loop over the entries of the
form, started with the empty slice. -/
def argsFromValues (form : Values) : Option (List Str) :=
  form.foldlM argsFromValuesStep []

/-! ## Errors, files and the operating system -/

/-- The message of `errors.Wrap(err, message)` of `github.com/pkg/errors`: the
message, a colon and a blank, then the message of the wrapped error. -/
def Wrap (err message : Str) : Str := message ++ ": ".toList ++ err

/-- The files of the temporary directory: path and content. -/
abbrev Files := List (Str × Str)

/-- The file `name` is unlinked. -/
def Files.remove (fs : Files) (name : Str) : Files :=
  fs.filter (fun f => f.1 != name)

/-- The file `name` gets the content `content`. -/
def Files.put (fs : Files) (name content : Str) : Files :=
  (name, content) :: Files.remove fs name

/-- The content of the file `name`, when it exists. -/
def Files.read (fs : Files) (name : Str) : Option Str :=
  fs.lookup name

/-- What one run of a subprocess leaves: the captured standard output and
standard error, the error of `cmd.Run()` if any, and the files afterwards. -/
structure Ran where
  stdout : Str
  stderr : Str
  err : Option Str
  files : Files

/-- The behaviour of the operating system, which the code does not control.
`random pattern fs` is the error with which opening a temporary file fails, or
the random middle part of its name; `write name data` is `none` when the write
succeeds and otherwise the number of bytes written and the error; `run` is the
behaviour of a subprocess given the command, its arguments and the files;
`remove name fs` is `none` when `os.Remove(name)` succeeds on the files `fs`
and otherwise its error (for instance when the path has become a directory
that is not empty). -/
structure OS where
  TempDir : Str
  random : Str → Files → Except Str Str
  write : Str → Str → Option (Nat × Str)
  run : Str → List Str → Files → Ran
  remove : Str → Files → Option Str

/-- Splits at the last `*`: the text before it and the text after it. -/
def splitLastStar : Str → Option (Str × Str)
  | [] => none
  | c :: cs =>
    match splitLastStar cs with
    | some (p, s) => some (c :: p, s)
    | none => if c = '*' then some ([], cs) else none

/-- The function `joinPath` of the Go library: the directory, a separator
unless the directory ends in one, and the element. -/
def joinPath (dir elem : Str) : Str :=
  if dir.getLast? = some '/' then dir ++ elem else dir ++ "/".toList ++ elem

/-- The call `os.CreateTemp("", pattern)` of the Go library: the name is the
temporary directory joined with the pattern in which the last `*` is replaced
by a random string (appended when there is no `*`). The file is opened with
`O_EXCL`, so a name that exists already is never returned: the library draws
another random string, and `os.random` stands for the last one it draws.
Result: error or name, and the files afterwards. -/
def CreateTemp (os : OS) (fs : Files) (pattern : Str) : Except Str Str × Files :=
  if '/' ∈ pattern then
    (.error ("createtemp ".toList ++ pattern ++ ": pattern contains path separator".toList), fs)
  else
    match os.random pattern fs with
    | .error e => (.error e, fs)
    | .ok r =>
      let ps := (splitLastStar pattern).getD (pattern, [])
      let name := joinPath os.TempDir ps.1 ++ r ++ ps.2
      if (Files.read fs name).isSome then
        (.error ("createtemp ".toList ++ joinPath os.TempDir ps.1 ++ "*".toList ++ ps.2
          ++ ": file exists".toList), fs)
      else
        (.ok name, Files.put fs name [])

/-- The call `f.WriteString(data)` on the freshly created file `name`: the
error if any, and the files afterwards. -/
def WriteString (os : OS) (fs : Files) (name data : Str) : Option Str × Files :=
  match os.write name data with
  | none => (none, Files.put fs name data)
  | some (n, e) => (some e, Files.put fs name (data.take n))

/-- The call `os.ReadFile(name)`. -/
def ReadFile (fs : Files) (name : Str) : Except Str Str :=
  match Files.read fs name with
  | some content => .ok content
  | none => .error ("open ".toList ++ name ++ ": no such file or directory".toList)

/-! ## `Application` -/

/-- The struct `Application`; durations are in nanoseconds. -/
structure Application where
  Address : Str
  RequestTimeout : Nat
  ReadTimeout : Nat
  WriteTimeout : Nat
  WkHTMLToPdf : Str
  WkHTMLToImage : Str

/-- The part of `*http.Request` the code reads: the error that
`Request.ParseForm()` returns, if any, and the field `Form` after that call. -/
structure Request where
  parseErr : Option Str
  Form : Values

/-- The struct `ProcessInput`. -/
structure ProcessInput where
  Request : Request
  TempPattern : Str
  Binnary : Str

/-- One invocation of `Application.exec`: the command, its arguments and the
files at that moment. -/
structure Call where
  command : Str
  args : List Str
  files : Files

/-- The method `Application.exec`: runs the command; when the run fails the
result is the error `errors.Wrapf(err, "failed to execute %s", stderr)` and no
bytes, otherwise the captured standard output. Second component: the files
after the run. -/
def exec (os : OS) (fs : Files) (command : Str) (args : List Str) : Except Str Str × Files :=
  let ran := os.run command args fs
  match ran.err with
  | some err => (.error (Wrap err ("failed to execute ".toList ++ ran.stderr)), ran.files)
  | none => (.ok ran.stdout, ran.files)

/-- What a call of `processRequest` amounts to: the returned pair (bytes or
error), the files when it returns, the temporary files it created and the
invocations of `exec` it made. -/
structure Outcome where
  ret : Except Str Str
  files : Files
  created : List Str
  calls : List Call

/-- The statement `defer os.Remove(name)`: `os.Remove` is called when the
function returns, whatever it returns. Its error is discarded: when the
removal fails the path stays and the function returns what it returns. -/
def deferRemove (os : OS) (name : Str) (o : Outcome) : Outcome :=
  match os.remove name o.files with
  | none => { o with files := Files.remove o.files name }
  | some _ => o

/-- Records that the temporary file `name` was created. -/
def Outcome.creating (name : Str) (o : Outcome) : Outcome :=
  { o with created := name :: o.created }

/-- Lines 156 to 179 of `processRequest`: the code that follows the resolution
of `input`. -/
def processRequestRest (os : OS) (fs : Files) (processInput : ProcessInput)
    (args : List Str) (input : Str) : Outcome :=
  if input = [] then
    ⟨.error "url or html is required".toList, fs, [], []⟩
  else
    match CreateTemp os fs processInput.TempPattern with
    | (.error err, fs) => ⟨.error (Wrap err "failed to create temp file".toList), fs, [], []⟩
    | (.ok outputFile, fs) =>
      deferRemove os outputFile <| Outcome.creating outputFile <|
        let args := args ++ [input]
        let args := args ++ [outputFile]
        let call : Call := ⟨processInput.Binnary, args, fs⟩
        match exec os fs processInput.Binnary args with
        | (.error err, fs) => ⟨.error (Wrap err "failed to execute".toList), fs, [], [call]⟩
        | (.ok _, fs) =>
          match ReadFile fs outputFile with
          | .error err => ⟨.error (Wrap err "failed to read temp file".toList), fs, [], [call]⟩
          | .ok output => ⟨.ok output, fs, [], [call]⟩

/-- The method `Application.processRequest`, run on the files `fs`; `none` is a
panic (of `argsFromValues`). -/
def processRequest (os : OS) (fs : Files) (processInput : ProcessInput) : Option Outcome :=
  match processInput.Request.parseErr with
  | some err => some ⟨.error (Wrap err "failed to parse form".toList), fs, [], []⟩
  | none =>
    let input := processInput.Request.Form.Get "url".toList
    match argsFromValues processInput.Request.Form with
    | none => none
    | some args =>
      let html := processInput.Request.Form.Get "html".toList
      if html ≠ [] then
        match CreateTemp os fs "*.html".toList with
        | (.error err, fs) =>
          some ⟨.error (Wrap err "failed to create html temp file".toList), fs, [], []⟩
        | (.ok outputHTML, fs) =>
          some <| deferRemove os outputHTML <| Outcome.creating outputHTML <|
            match WriteString os fs outputHTML html with
            | (some err, fs) =>
              ⟨.error (Wrap err "failed to write html temp file".toList), fs, [], []⟩
            | (none, fs) => processRequestRest os fs processInput args outputHTML
      else
        some (processRequestRest os fs processInput args input)

/-! ## The HTTP handlers -/

/-- What a handler wrote to its `http.ResponseWriter`. -/
structure Response where
  status : Nat
  header : List (Str × Str)
  body : Str

/-- The call `http.Error(w, error, code)`: plain-text headers, the status, and
the message followed by a line feed. -/
def httpError (error : Str) (code : Nat) : Response :=
  ⟨code, [("Content-Type".toList, "text/plain; charset=utf-8".toList),
          ("X-Content-Type-Options".toList, "nosniff".toList)], error ++ "\n".toList⟩

/-- The constant `http.StatusInternalServerError`. -/
def StatusInternalServerError : Nat := 500

/-- The constant `http.StatusOK`. -/
def StatusOK : Nat := 200

/-- A handler's response together with the outcome of the `processRequest`
call behind it. -/
structure Served where
  response : Response
  outcome : Outcome

/-- The response that the `/jpg` and `/pdf` handlers build from what
`processRequest` returned. -/
def respond (contentType : Str) (ret : Except Str Str) : Response :=
  match ret with
  | .error err => httpError err StatusInternalServerError
  | .ok output => ⟨StatusOK, [("Content-Type".toList, contentType)], output⟩

/-- The handler registered for `/jpg`. -/
def handleJpg (a : Application) (os : OS) (fs : Files) (r : Request) : Option Served :=
  match processRequest os fs ⟨r, "*.jpg".toList, a.WkHTMLToImage⟩ with
  | none => none
  | some o => some ⟨respond "image/jpeg".toList o.ret, o⟩

/-- The handler registered for `/pdf`. -/
def handlePdf (a : Application) (os : OS) (fs : Files) (r : Request) : Option Served :=
  match processRequest os fs ⟨r, "*.pdf".toList, a.WkHTMLToPdf⟩ with
  | none => none
  | some o => some ⟨respond "application/pdf".toList o.ret, o⟩

/-- The handler registered for `/version`. -/
def handleVersion (a : Application) (os : OS) (fs : Files) (_r : Request) : Response :=
  match (exec os fs a.WkHTMLToPdf ["--version".toList]).1 with
  | .error err => httpError err StatusInternalServerError
  | .ok output => ⟨StatusOK, [], output⟩

/-- The handler registered for `/healthz`. -/
def handleHealthz (_r : Request) : Response :=
  ⟨StatusOK, [], "OK".toList⟩

/-! ## A sample operating system and sample requests -/

/-- A renderer that writes `%PDF` to the path given as its last argument and
fails with `exit status 1` when the input argument is `bad`. -/
def sampleRun (_command : Str) (args : List Str) (fs : Files) : Ran :=
  match args.reverse with
  | out :: input :: _ =>
    if input = "bad".toList then
      ⟨"out".toList, "Error: bad".toList, some "exit status 1".toList, fs⟩
    else
      ⟨"out".toList, [], none, Files.put fs out "%PDF".toList⟩
  | _ => ⟨[], [], some "exit status 1".toList, fs⟩

/-- An operating system in which temporary files can be created and written. -/
def sampleOS : OS :=
  ⟨"/tmp".toList, fun _ _ => .ok "42".toList, fun _ _ => none, sampleRun, fun _ _ => none⟩

/-- An operating system in which no temporary file can be created. -/
def sampleFullDiskOS : OS :=
  ⟨"/tmp".toList, fun _ _ => .error "no space left on device".toList, fun _ _ => none,
    sampleRun, fun _ _ => none⟩

/-- An operating system in which temporary files can be created and every
write fails after zero bytes. -/
def sampleWriteFailOS : OS :=
  ⟨"/tmp".toList, fun _ _ => .ok "42".toList,
    fun _ _ => some (0, "no space left on device".toList), sampleRun, fun _ _ => none⟩

/-- An operating system in which the html temporary file can be created and
written and no other temporary file can be created. -/
def sampleNoOutputOS : OS :=
  ⟨"/tmp".toList,
    fun pattern _ =>
      if pattern = "*.html".toList then .ok "42".toList
      else .error "no space left on device".toList,
    fun _ _ => none, sampleRun, fun _ _ => none⟩

/-- An operating system in which temporary files can be created and written
and every `os.Remove` fails, as it does for a path that the subprocess has
replaced by a directory that is not empty. -/
def sampleStuckOS : OS :=
  ⟨"/tmp".toList, fun _ _ => .ok "42".toList, fun _ _ => none, sampleRun,
    fun _ _ => some "directory not empty".toList⟩

/-- A sample configuration. -/
def sampleApp : Application :=
  ⟨":8080".toList, 10000000000, 5000000000, 10000000000,
    "wkhtmltopdf".toList, "wkhtmltoimage".toList⟩

/-- The request `url=http://example.com&options[grayscale]=`. -/
def sampleRequest : Request :=
  ⟨none, [("url".toList, ["http://example.com".toList]),
          ("options[grayscale]".toList, [[]])]⟩

/-- The request `html=<p>x</p>&url=http://example.com`. -/
def sampleHtmlRequest : Request :=
  ⟨none, [("html".toList, ["<p>x</p>".toList]), ("url".toList, ["http://example.com".toList])]⟩

/-- The `ProcessInput` that the `/pdf` handler builds for `sampleHtmlRequest`. -/
def sampleHtmlInput : ProcessInput :=
  ⟨sampleHtmlRequest, "*.pdf".toList, sampleApp.WkHTMLToPdf⟩

/-- The request `url=bad`, on which the sample renderer fails. -/
def sampleBadRequest : Request :=
  ⟨none, [("url".toList, ["bad".toList])]⟩

/-- The `exec` invocation of `/pdf` on `sampleRequest`. -/
def sampleCall : Call :=
  ⟨"wkhtmltopdf".toList,
    ["--grayscale".toList, "http://example.com".toList, "/tmp/42.pdf".toList],
    [("/tmp/42.pdf".toList, [])]⟩

/-- What `/pdf` does on `sampleRequest`. -/
def sampleServed : Served :=
  ⟨⟨200, [("Content-Type".toList, "application/pdf".toList)], "%PDF".toList⟩,
    ⟨.ok "%PDF".toList, [], ["/tmp/42.pdf".toList], [sampleCall]⟩⟩

/-- The `exec` invocation of `/jpg` on `sampleRequest`. -/
def sampleJpgCall : Call :=
  ⟨"wkhtmltoimage".toList,
    ["--grayscale".toList, "http://example.com".toList, "/tmp/42.jpg".toList],
    [("/tmp/42.jpg".toList, [])]⟩

/-- What `/jpg` does on `sampleRequest`. -/
def sampleJpgServed : Served :=
  ⟨⟨200, [("Content-Type".toList, "image/jpeg".toList)], "%PDF".toList⟩,
    ⟨.ok "%PDF".toList, [], ["/tmp/42.jpg".toList], [sampleJpgCall]⟩⟩

/-- The `exec` invocation of `processRequest` on `sampleHtmlInput`. -/
def sampleHtmlCall : Call :=
  ⟨"wkhtmltopdf".toList, ["/tmp/42.html".toList, "/tmp/42.pdf".toList],
    [("/tmp/42.pdf".toList, []), ("/tmp/42.html".toList, "<p>x</p>".toList)]⟩

/-- What `processRequest` does on `sampleHtmlInput`. -/
def sampleHtmlOutcome : Outcome :=
  ⟨.ok "%PDF".toList, [], ["/tmp/42.html".toList, "/tmp/42.pdf".toList], [sampleHtmlCall]⟩

/-- The `exec` invocation of `/pdf` on `sampleBadRequest`. -/
def sampleBadCall : Call :=
  ⟨"wkhtmltopdf".toList, ["bad".toList, "/tmp/42.pdf".toList], [("/tmp/42.pdf".toList, [])]⟩

/-- What `/pdf` does on `sampleBadRequest`. -/
def sampleBadServed : Served :=
  ⟨httpError "failed to execute: failed to execute Error: bad: exit status 1".toList 500,
    ⟨.error "failed to execute: failed to execute Error: bad: exit status 1".toList, [],
      ["/tmp/42.pdf".toList], [sampleBadCall]⟩⟩

/-! ## Lemmas on the regular expression -/

theorem dropLit_eq_some {lit s rest : Str} (h : dropLit lit s = some rest) :
    s = lit ++ rest := by
  induction lit generalizing s with
  | nil => simp [dropLit] at h; simp [h]
  | cons l ls ih =>
    cases s with
    | nil => simp [dropLit] at h
    | cons c cs =>
      simp only [dropLit] at h
      split at h
      · next hlc => subst hlc; simp [ih h]
      · simp at h

theorem dropLit_append (lit rest : Str) : dropLit lit (lit ++ rest) = some rest := by
  induction lit with
  | nil => simp [dropLit]
  | cons l ls ih => simp [dropLit, ih]

theorem groupThenBracket_sound {s g : Str} (h : groupThenBracket s = some g) :
    g ≠ [] ∧ '\n' ∉ g ∧ ∃ b, s = g ++ ']' :: b := by
  induction s generalizing g with
  | nil => simp [groupThenBracket] at h
  | cons c cs ih =>
    simp only [groupThenBracket] at h
    split at h
    · next hc =>
      have hc' : c ≠ '\n' := by simpa [dot] using hc
      split at h
      · next g' hg' =>
        obtain ⟨_, hnl, b, hb⟩ := ih hg'
        cases h
        refine ⟨by simp, ?_, b, by simp [hb]⟩
        simp only [List.mem_cons, not_or]
        exact ⟨fun e => hc' e.symm, hnl⟩
      · split at h
        · next hhead =>
          cases h
          cases cs with
          | nil => simp at hhead
          | cons d ds =>
            simp at hhead
            subst hhead
            refine ⟨by simp, ?_, ds, by simp⟩
            simp only [List.mem_singleton]
            exact fun e => hc' e.symm
        · simp at h
    · simp at h

theorem groupThenBracket_complete (name : Str) (hne : name ≠ []) (hnl : '\n' ∉ name) :
    groupThenBracket (name ++ [']']) = some name := by
  induction name with
  | nil => exact absurd rfl hne
  | cons c cs ih =>
    have hc' : c ≠ '\n' := fun e => hnl (by simp [e])
    have hc : dot c = true := by simpa [dot] using hc'
    have hcs : '\n' ∉ cs := fun h => hnl (List.mem_cons_of_mem _ h)
    cases cs with
    | nil => simp [groupThenBracket, dot, hc']
    | cons d ds =>
      have := ih (by simp) hcs
      simp only [List.cons_append] at this ⊢
      rw [groupThenBracket, if_pos hc, this]

theorem optionsRe2_sound {s g : Str} (h : optionsRe2FindStringSubmatch1 s = some g) :
    g ≠ [] ∧ '\n' ∉ g ∧ ∃ a b, s = a ++ "options[".toList ++ g ++ "]".toList ++ b := by
  induction s with
  | nil => simp [optionsRe2FindStringSubmatch1] at h
  | cons c cs ih =>
    simp only [optionsRe2FindStringSubmatch1] at h
    split at h
    · next g' hg' =>
      cases h
      simp only [optionsRe2At] at hg'
      split at hg'
      · next rest hrest =>
        obtain ⟨h1, h2, b, hb⟩ := groupThenBracket_sound hg'
        refine ⟨h1, h2, [], b, ?_⟩
        rw [dropLit_eq_some hrest, hb]
        simp
      · simp at hg'
    · obtain ⟨h1, h2, a, b, hab⟩ := ih h
      exact ⟨h1, h2, c :: a, b, by simp [hab]⟩

theorem optionsRe2_complete (name : Str) (hne : name ≠ []) (hnl : '\n' ∉ name) :
    optionsRe2FindStringSubmatch1 ("options[".toList ++ name ++ "]".toList) = some name := by
  have hat : optionsRe2At ("options[".toList ++ name ++ "]".toList) = some name := by
    simp only [optionsRe2At, List.append_assoc, dropLit_append]
    exact groupThenBracket_complete name hne hnl
  have hcons : "options[".toList ++ name ++ "]".toList
      = 'o' :: ("ptions[".toList ++ name ++ "]".toList) := rfl
  rw [hcons] at hat ⊢
  rw [optionsRe2FindStringSubmatch1, hat]

theorem groupThenBracket_isSome (g b : Str) (hne : g ≠ []) (hnl : '\n' ∉ g) :
    (groupThenBracket (g ++ ']' :: b)).isSome = true := by
  induction g with
  | nil => exact absurd rfl hne
  | cons c cs ih =>
    have hc' : c ≠ '\n' := fun e => hnl (by simp [e])
    have hc : dot c = true := by simpa [dot] using hc'
    have hcs : '\n' ∉ cs := fun h => hnl (List.mem_cons_of_mem _ h)
    rw [List.cons_append, groupThenBracket, if_pos hc]
    cases cs with
    | nil =>
      cases hg : groupThenBracket ([] ++ ']' :: b) with
      | none => simp
      | some g' => simp
    | cons d ds =>
      have := ih (by simp) hcs
      cases hg : groupThenBracket (d :: ds ++ ']' :: b) with
      | none => rw [hg] at this; exact absurd this (by simp)
      | some g' => simp

/-- The matcher agrees with the unanchored search for the pattern: it finds a
match exactly when the string contains `options[`, then a non-empty run of
characters other than line feed, then `]`. -/
theorem optionsRe2MatchString_iff (s : Str) :
    optionsRe2MatchString s = true ↔
      ∃ a g b : Str, g ≠ [] ∧ '\n' ∉ g ∧ s = a ++ "options[".toList ++ g ++ "]".toList ++ b := by
  constructor
  · intro h
    cases hf : optionsRe2FindStringSubmatch1 s with
    | none => simp [optionsRe2MatchString, hf] at h
    | some g =>
      obtain ⟨h1, h2, a, b, hab⟩ := optionsRe2_sound hf
      exact ⟨a, g, b, h1, h2, hab⟩
  · rintro ⟨a, g, b, hne, hnl, hs⟩
    subst hs
    induction a with
    | nil =>
      have hat : (optionsRe2At ("options[".toList ++ g ++ "]".toList ++ b)).isSome = true := by
        simp only [optionsRe2At, List.append_assoc, dropLit_append]
        exact groupThenBracket_isSome g b hne hnl
      have hcons : [] ++ "options[".toList ++ g ++ "]".toList ++ b
          = 'o' :: ("ptions[".toList ++ g ++ "]".toList ++ b) := rfl
      have hcons' : "options[".toList ++ g ++ "]".toList ++ b
          = 'o' :: ("ptions[".toList ++ g ++ "]".toList ++ b) := rfl
      rw [hcons]
      rw [hcons'] at hat
      unfold optionsRe2MatchString
      rw [optionsRe2FindStringSubmatch1]
      cases hg : optionsRe2At ('o' :: ("ptions[".toList ++ g ++ "]".toList ++ b)) with
      | none => rw [hg] at hat; exact absurd hat (by simp)
      | some g' => simp
    | cons x xs ih =>
      unfold optionsRe2MatchString at ih ⊢
      simp only [List.cons_append]
      rw [optionsRe2FindStringSubmatch1]
      cases hg : optionsRe2At (x :: (xs ++ "options[".toList ++ g ++ "]".toList ++ b)) with
      | none => simpa using ih
      | some g' => simp

theorem groupThenBracket_longest {t g : Str} (h : groupThenBracket t = some g)
    (g' b' : Str) (hne : g' ≠ []) (hnl : '\n' ∉ g') (ht : t = g' ++ ']' :: b') :
    g'.length ≤ g.length := by
  induction t generalizing g g' with
  | nil => simp [groupThenBracket] at h
  | cons c cs ih =>
    cases g' with
    | nil => exact absurd rfl hne
    | cons x xs =>
      simp only [List.cons_append, List.cons.injEq] at ht
      obtain ⟨_, hcs⟩ := ht
      have hxs : '\n' ∉ xs := fun hm => hnl (List.mem_cons_of_mem _ hm)
      simp only [groupThenBracket] at h
      split at h
      · split at h
        · next g0 hg0 =>
          cases h
          cases xs with
          | nil => simp
          | cons y ys =>
            have := ih hg0 (y :: ys) (by simp) hxs hcs
            simpa using this
        · next hnone =>
          cases xs with
          | nil =>
            split at h
            · cases h; simp
            · simp at h
          | cons y ys =>
            have hsome := groupThenBracket_isSome (y :: ys) b' (by simp) hxs
            rw [← hcs] at hsome
            rw [hnone] at hsome
            exact absurd hsome (by simp)
      · simp at h

theorem optionsRe2At_none {s : Str} (h : optionsRe2At s = none) (g b : Str)
    (hne : g ≠ []) (hnl : '\n' ∉ g) : s ≠ "options[".toList ++ g ++ "]".toList ++ b := by
  intro hs
  have hsome := groupThenBracket_isSome g b hne hnl
  rw [hs] at h
  simp only [optionsRe2At, List.append_assoc, dropLit_append] at h
  have h' : groupThenBracket (g ++ ']' :: b) = none := h
  rw [h'] at hsome
  exact absurd hsome (by simp)

/-- The capture is the one of Go's leftmost-first semantics with a greedy
repetition: the match starts at the leftmost position where the pattern
matches at all, and at that position the capture is the longest possible. -/
theorem optionsRe2_leftmost_longest {s g : Str}
    (h : optionsRe2FindStringSubmatch1 s = some g) :
    ∃ a b : Str, s = a ++ "options[".toList ++ g ++ "]".toList ++ b ∧
      ∀ a' g' b' : Str, g' ≠ [] → '\n' ∉ g' →
        s = a' ++ "options[".toList ++ g' ++ "]".toList ++ b' →
        a.length ≤ a'.length ∧ (a'.length = a.length → g'.length ≤ g.length) := by
  induction s with
  | nil => simp [optionsRe2FindStringSubmatch1] at h
  | cons c cs ih =>
    simp only [optionsRe2FindStringSubmatch1] at h
    split at h
    · next g0 hg0 =>
      cases h
      simp only [optionsRe2At] at hg0
      split at hg0
      · next rest hrest =>
        obtain ⟨_, _, b, hb⟩ := groupThenBracket_sound hg0
        have hs := dropLit_eq_some hrest
        refine ⟨[], b, by rw [hs, hb]; simp, ?_⟩
        intro a' g' b' hne' hnl' hs'
        refine ⟨Nat.zero_le _, fun hlen => ?_⟩
        have ha' : a' = [] := List.length_eq_zero.mp hlen
        subst ha'
        have hrest' : dropLit "options[".toList (c :: cs) = some (g' ++ ']' :: b') := by
          rw [hs']
          simp only [List.nil_append, List.append_assoc]
          exact dropLit_append _ _
        rw [hrest] at hrest'
        simp only [Option.some.injEq] at hrest'
        exact groupThenBracket_longest hg0 g' b' hne' hnl' hrest'
      · simp at hg0
    · next hat =>
      obtain ⟨a, b, hab, hmin⟩ := ih h
      refine ⟨c :: a, b, by simp [hab], ?_⟩
      intro a' g' b' hne' hnl' hs'
      cases a' with
      | nil => exact absurd hs' (optionsRe2At_none hat g' b' hne' hnl')
      | cons x xs =>
        simp only [List.cons_append, List.cons.injEq] at hs'
        obtain ⟨hle, hlen⟩ := hmin xs g' b' hne' hnl' hs'.2
        exact ⟨by simpa using hle, fun hl => hlen (by simpa using hl)⟩

/-! ## Lemmas on `argsFromValues` -/

theorem argsFromValuesStep_acc (acc : List Str) (kv : Str × List Str) :
    argsFromValuesStep acc kv = (argsFromValuesStep [] kv).map (acc ++ ·) := by
  unfold argsFromValuesStep
  split
  · split
    · rfl
    · split
      · rfl
      · split <;> simp
  · simp

theorem foldlM_step_acc (form : Values) (acc : List Str) :
    form.foldlM argsFromValuesStep acc = (argsFromValues form).map (acc ++ ·) := by
  induction form generalizing acc with
  | nil => simp [argsFromValues]
  | cons kv rest ih =>
    simp only [argsFromValues, List.foldlM_cons]
    rw [argsFromValuesStep_acc acc kv]
    cases hs : argsFromValuesStep [] kv with
    | none => simp
    | some x =>
      simp only [Option.map_some', Option.bind_eq_bind, Option.some_bind]
      rw [ih (acc ++ x), ih x]
      cases argsFromValues rest <;> simp

theorem argsFromValues_cons (kv : Str × List Str) (rest : Values) :
    argsFromValues (kv :: rest)
      = (argsFromValuesStep [] kv).bind fun x => (argsFromValues rest).map (x ++ ·) := by
  conv_lhs => rw [argsFromValues, List.foldlM_cons]
  cases hs : argsFromValuesStep [] kv with
  | none => simp
  | some x => simp [foldlM_step_acc]

theorem argsFromValues_append (xs ys : Values) :
    argsFromValues (xs ++ ys)
      = (argsFromValues xs).bind fun x => (argsFromValues ys).map (x ++ ·) := by
  induction xs with
  | nil => simp [argsFromValues]
  | cons kv rest ih =>
    rw [List.cons_append, argsFromValues_cons, argsFromValues_cons, ih]
    cases argsFromValuesStep [] kv with
    | none => simp
    | some x =>
      cases argsFromValues rest with
      | none => simp
      | some y => cases argsFromValues ys <;> simp

theorem argsFromValues_isSome (form : Values) (h : ∀ kv ∈ form, kv.2 ≠ []) :
    ∃ args, argsFromValues form = some args := by
  induction form with
  | nil => exact ⟨[], rfl⟩
  | cons kv rest ih =>
    obtain ⟨r, hr⟩ := ih (fun x hx => h x (List.mem_cons_of_mem _ hx))
    have hkv : kv.2 ≠ [] := h kv (List.mem_cons_self _ _)
    have : ∃ x, argsFromValuesStep [] kv = some x := by
      unfold argsFromValuesStep
      split
      · next hm =>
        cases hf : optionsRe2FindStringSubmatch1 kv.1 with
        | none => simp [optionsRe2MatchString, hf] at hm
        | some g =>
          cases hv : kv.2 with
          | nil => exact absurd hv hkv
          | cons v0 more => by_cases h0 : v0.length > 0 <;> simp [h0]
      · exact ⟨_, rfl⟩
    obtain ⟨x, hx⟩ := this
    exact ⟨x ++ r, by simp [argsFromValues_cons, hx, hr]⟩

theorem argsFromValuesStep_option (name v : Str) (more : List Str)
    (hne : name ≠ []) (hnl : '\n' ∉ name) :
    argsFromValuesStep [] ("options[".toList ++ name ++ "]".toList, v :: more)
      = some (("--".toList ++ name) :: (if v = [] then [] else [v])) := by
  have hf := optionsRe2_complete name hne hnl
  unfold argsFromValuesStep
  simp only [optionsRe2MatchString, hf, Option.isSome_some, if_true]
  cases v with
  | nil => simp
  | cons c cs => simp

theorem argsFromValuesStep_unmatched (kv : Str × List Str)
    (h : optionsRe2FindStringSubmatch1 kv.1 = none) :
    argsFromValuesStep [] kv = some [] := by
  simp [argsFromValuesStep, optionsRe2MatchString, h]

/-! ## Lemmas on files and on `processRequest` -/

theorem Files.remove_cons (k v : Str) (rest : Files) (name : Str) :
    Files.remove ((k, v) :: rest) name
      = if k = name then Files.remove rest name else (k, v) :: Files.remove rest name := by
  by_cases h : k = name <;> simp [Files.remove, List.filter_cons, h]

theorem Files.read_cons (k v : Str) (rest : Files) (name : Str) :
    Files.read ((k, v) :: rest) name = if name = k then some v else Files.read rest name := by
  by_cases h : name = k
  · simp [Files.read, List.lookup_cons, h]
  · have hk : (name == k) = false := by simpa using h
    simp [Files.read, List.lookup_cons, h, hk]

theorem Files.read_remove_self (fs : Files) (name : Str) :
    Files.read (Files.remove fs name) name = none := by
  induction fs with
  | nil => rfl
  | cons f rest ih =>
    obtain ⟨k, v⟩ := f
    rw [Files.remove_cons]
    by_cases h : k = name
    · simpa [h] using ih
    · rw [if_neg h, Files.read_cons, if_neg (fun e => h e.symm)]
      exact ih

theorem Files.read_remove_ne (fs : Files) (name other : Str) (hne : name ≠ other) :
    Files.read (Files.remove fs other) name = Files.read fs name := by
  induction fs with
  | nil => rfl
  | cons f rest ih =>
    obtain ⟨k, v⟩ := f
    rw [Files.remove_cons, Files.read_cons]
    by_cases ho : k = other
    · rw [if_pos ho, ih, if_neg (by rw [ho]; exact hne)]
    · rw [if_neg ho, Files.read_cons, ih]

theorem Files.read_remove_of_none (fs : Files) (name other : Str)
    (h : Files.read fs name = none) : Files.read (Files.remove fs other) name = none := by
  by_cases hne : name = other
  · rw [hne]; exact Files.read_remove_self fs other
  · rw [Files.read_remove_ne fs name other hne]; exact h

theorem Files.read_put_self (fs : Files) (name content : Str) :
    Files.read (Files.put fs name content) name = some content := by
  simp [Files.put, Files.read_cons]

theorem Files.read_put_ne (fs : Files) (name other content : Str) (hne : name ≠ other) :
    Files.read (Files.put fs other content) name = Files.read fs name := by
  rw [Files.put, Files.read_cons, if_neg hne, Files.read_remove_ne fs name other hne]

theorem splitLastStar_html : splitLastStar "*.html".toList = some ([], ".html".toList) := by
  decide

theorem CreateTemp_ok {os : OS} {fs fs1 : Files} {pattern name : Str}
    (h : CreateTemp os fs pattern = (.ok name, fs1)) :
    Files.read fs name = none ∧ fs1 = Files.put fs name [] ∧
      ∃ r, name = joinPath os.TempDir ((splitLastStar pattern).getD (pattern, [])).1
        ++ r ++ ((splitLastStar pattern).getD (pattern, [])).2 := by
  unfold CreateTemp at h
  split at h
  · simp at h
  · split at h
    · simp at h
    · next r hr =>
      simp only at h
      split at h
      · simp at h
      · next hex =>
        simp only [Prod.mk.injEq, Except.ok.injEq] at h
        obtain ⟨h1, h2⟩ := h
        subst h1
        refine ⟨?_, h2.symm, r, rfl⟩
        simpa using hex

theorem deferRemove_ret (os : OS) (name : Str) (o : Outcome) :
    (deferRemove os name o).ret = o.ret := by
  unfold deferRemove
  split <;> rfl

theorem deferRemove_created (os : OS) (name : Str) (o : Outcome) :
    (deferRemove os name o).created = o.created := by
  unfold deferRemove
  split <;> rfl

theorem deferRemove_calls (os : OS) (name : Str) (o : Outcome) :
    (deferRemove os name o).calls = o.calls := by
  unfold deferRemove
  split <;> rfl

theorem deferRemove_read_none (os : OS) (name x : Str) (o : Outcome)
    (h : Files.read o.files x = none) : Files.read (deferRemove os name o).files x = none := by
  unfold deferRemove
  split
  · exact Files.read_remove_of_none _ _ _ h
  · exact h

theorem deferRemove_read_self (os : OS) (name : Str) (o : Outcome)
    (hrm : ∀ fs, os.remove name fs = none) :
    Files.read (deferRemove os name o).files name = none := by
  unfold deferRemove
  rw [hrm o.files]
  exact Files.read_remove_self _ _

theorem Outcome.creating_ret (name : Str) (o : Outcome) :
    (Outcome.creating name o).ret = o.ret := rfl

theorem Outcome.creating_calls (name : Str) (o : Outcome) :
    (Outcome.creating name o).calls = o.calls := rfl

theorem Outcome.creating_created (name : Str) (o : Outcome) :
    (Outcome.creating name o).created = name :: o.created := rfl

theorem Outcome.creating_files (name : Str) (o : Outcome) :
    (Outcome.creating name o).files = o.files := rfl

/-- Lines 156 to 179 when the input is not empty and the output file can be
created: one `exec` invocation, one created file, and the returned pair
decided by the run and by the read of the output file. -/
theorem processRequestRest_of_create (os : OS) (fs fs1 : Files) (processInput : ProcessInput)
    (args : List Str) (input outputFile : Str) (hin : input ≠ [])
    (hct : CreateTemp os fs processInput.TempPattern = (.ok outputFile, fs1)) :
    (processRequestRest os fs processInput args input).calls
        = [⟨processInput.Binnary, args ++ [input, outputFile], fs1⟩] ∧
      (processRequestRest os fs processInput args input).created = [outputFile] ∧
      (∀ e, (os.run processInput.Binnary (args ++ [input, outputFile]) fs1).err = some e →
        (processRequestRest os fs processInput args input).ret
          = .error (Wrap (Wrap e ("failed to execute ".toList
              ++ (os.run processInput.Binnary (args ++ [input, outputFile]) fs1).stderr))
              "failed to execute".toList)) ∧
      ((os.run processInput.Binnary (args ++ [input, outputFile]) fs1).err = none →
        ∀ content,
          Files.read (os.run processInput.Binnary (args ++ [input, outputFile]) fs1).files
            outputFile = some content →
          (processRequestRest os fs processInput args input).ret = .ok content) := by
  unfold processRequestRest
  rw [if_neg hin, hct]
  simp only [List.append_assoc, List.singleton_append, deferRemove_calls, deferRemove_created,
    deferRemove_ret, Outcome.creating_calls, Outcome.creating_created, Outcome.creating_ret]
  cases herr : (os.run processInput.Binnary (args ++ [input, outputFile]) fs1).err with
  | some e =>
    simp [exec, herr]
  | none =>
    simp only [exec, herr]
    cases hrd : ReadFile (os.run processInput.Binnary (args ++ [input, outputFile]) fs1).files
        outputFile with
    | error e =>
      have hnone : Files.read
          (os.run processInput.Binnary (args ++ [input, outputFile]) fs1).files outputFile
          = none := by
        unfold ReadFile at hrd
        split at hrd
        · simp at hrd
        · assumption
      simp [hnone]
    | ok output =>
      have hsome : Files.read
          (os.run processInput.Binnary (args ++ [input, outputFile]) fs1).files outputFile
          = some output := by
        unfold ReadFile at hrd
        split at hrd
        · next content hcontent => simp at hrd; rw [hcontent, hrd]
        · simp at hrd
      simp [hsome]

/-- The shape of every `exec` invocation made by lines 156 to 179, and of the
outcome when there is one. -/
theorem processRequestRest_calls (os : OS) (fs : Files) (processInput : ProcessInput)
    (args : List Str) (input : Str) (c : Call)
    (hc : c ∈ (processRequestRest os fs processInput args input).calls) :
    input ≠ [] ∧ ∃ outputFile fs1,
      CreateTemp os fs processInput.TempPattern = (.ok outputFile, fs1) ∧
      c = ⟨processInput.Binnary, args ++ [input, outputFile], fs1⟩ ∧
      (processRequestRest os fs processInput args input).calls = [c] ∧
      (processRequestRest os fs processInput args input).created = [outputFile] ∧
      (∀ e, (os.run c.command c.args c.files).err = some e →
        (processRequestRest os fs processInput args input).ret
          = .error (Wrap (Wrap e ("failed to execute ".toList
              ++ (os.run c.command c.args c.files).stderr)) "failed to execute".toList)) ∧
      ((os.run c.command c.args c.files).err = none →
        ∀ content, Files.read (os.run c.command c.args c.files).files outputFile = some content →
          (processRequestRest os fs processInput args input).ret = .ok content) := by
  by_cases hin : input = []
  · simp [processRequestRest, hin] at hc
  · refine ⟨hin, ?_⟩
    rcases hct : CreateTemp os fs processInput.TempPattern with ⟨r, fs1⟩
    cases r with
    | error e =>
      unfold processRequestRest at hc
      rw [if_neg hin, hct] at hc
      simp at hc
    | ok outputFile =>
      obtain ⟨hcalls, hcreated, herr, hok⟩ :=
        processRequestRest_of_create os fs fs1 processInput args input outputFile hin hct
      rw [hcalls] at hc
      have hceq : c = ⟨processInput.Binnary, args ++ [input, outputFile], fs1⟩ :=
        List.mem_singleton.mp hc
      refine ⟨outputFile, fs1, rfl, hceq, ?_, hcreated, ?_, ?_⟩
      · rw [hcalls, hceq]
      · rw [hceq]; exact herr
      · rw [hceq]; exact hok

/-- Every temporary file created by lines 156 to 179 did not exist before. -/
theorem processRequestRest_created_new (os : OS) (fs : Files) (processInput : ProcessInput)
    (args : List Str) (input : Str) :
    ∀ name ∈ (processRequestRest os fs processInput args input).created,
      Files.read fs name = none := by
  by_cases hin : input = []
  · simp [processRequestRest, hin]
  · rcases hct : CreateTemp os fs processInput.TempPattern with ⟨r, fs1⟩
    cases r with
    | error e =>
      unfold processRequestRest
      rw [if_neg hin, hct]
      simp
    | ok outputFile =>
      obtain ⟨_, hcreated, _, _⟩ :=
        processRequestRest_of_create os fs fs1 processInput args input outputFile hin hct
      rw [hcreated]
      intro name hname
      rw [List.mem_singleton.mp hname]
      exact (CreateTemp_ok hct).1

/-- A temporary file created by lines 156 to 179 whose removal succeeds does
not exist when they return. -/
theorem processRequestRest_created (os : OS) (fs : Files) (processInput : ProcessInput)
    (args : List Str) (input : Str) (name : Str)
    (hname : name ∈ (processRequestRest os fs processInput args input).created)
    (hrm : ∀ fs', os.remove name fs' = none) :
    Files.read (processRequestRest os fs processInput args input).files name = none := by
  by_cases hin : input = []
  · simp [processRequestRest, hin] at hname
  · rcases hct : CreateTemp os fs processInput.TempPattern with ⟨r, fs1⟩
    cases r with
    | error e =>
      unfold processRequestRest at hname
      rw [if_neg hin, hct] at hname
      simp at hname
    | ok outputFile =>
      obtain ⟨_, hcreated, _, _⟩ :=
        processRequestRest_of_create os fs fs1 processInput args input outputFile hin hct
      rw [hcreated] at hname
      have hn : name = outputFile := List.mem_singleton.mp hname
      subst hn
      unfold processRequestRest
      rw [if_neg hin, hct]
      exact deferRemove_read_self os name _ hrm

/-- What `processRequest` does when the form parses and no html is submitted. -/
theorem processRequest_of_url (os : OS) (fs : Files) (processInput : ProcessInput)
    (args : List Str) (hparse : processInput.Request.parseErr = none)
    (hargs : argsFromValues processInput.Request.Form = some args)
    (hhtml : processInput.Request.Form.Get "html".toList = []) :
    processRequest os fs processInput
      = some (processRequestRest os fs processInput args
          (processInput.Request.Form.Get "url".toList)) := by
  simp only [processRequest, hparse, hargs]
  rw [if_neg (fun h => h hhtml)]

/-- What `processRequest` does when the form parses and the submitted html is
written to its temporary file. -/
theorem processRequest_of_html (os : OS) (fs fs1 : Files) (processInput : ProcessInput)
    (args : List Str) (name : Str) (hparse : processInput.Request.parseErr = none)
    (hargs : argsFromValues processInput.Request.Form = some args)
    (hhtml : processInput.Request.Form.Get "html".toList ≠ [])
    (hcreate : CreateTemp os fs "*.html".toList = (.ok name, fs1))
    (hwrite : os.write name (processInput.Request.Form.Get "html".toList) = none) :
    processRequest os fs processInput
      = some (deferRemove os name (Outcome.creating name (processRequestRest os
          (Files.put fs1 name (processInput.Request.Form.Get "html".toList))
          processInput args name))) := by
  simp only [processRequest, hparse, hargs]
  rw [if_pos hhtml]
  simp only [hcreate, WriteString, hwrite]

/-- The two ways in which `processRequest` reaches lines 156 to 179 with an
`exec` invocation: without html, or with the html written to a temporary
file. -/
theorem processRequest_cases (os : OS) (fs : Files) (processInput : ProcessInput)
    (o : Outcome) (c : Call)
    (h : processRequest os fs processInput = some o) (hc : c ∈ o.calls) :
    processInput.Request.parseErr = none ∧
    ∃ args, argsFromValues processInput.Request.Form = some args ∧
      ((processInput.Request.Form.Get "html".toList = [] ∧
          o = processRequestRest os fs processInput args
            (processInput.Request.Form.Get "url".toList)) ∨
        (processInput.Request.Form.Get "html".toList ≠ [] ∧ ∃ name fs1,
          CreateTemp os fs "*.html".toList = (.ok name, fs1) ∧
          os.write name (processInput.Request.Form.Get "html".toList) = none ∧
          o = deferRemove os name (Outcome.creating name
            (processRequestRest os
              (Files.put fs1 name (processInput.Request.Form.Get "html".toList))
              processInput args name)))) := by
  unfold processRequest at h
  cases hp : processInput.Request.parseErr with
  | some e =>
    simp only [hp, Option.some.injEq] at h
    subst h
    simp at hc
  | none =>
    refine ⟨rfl, ?_⟩
    simp only [hp] at h
    cases ha : argsFromValues processInput.Request.Form with
    | none => simp [ha] at h
    | some args =>
      refine ⟨args, rfl, ?_⟩
      simp only [ha] at h
      by_cases hh : processInput.Request.Form.Get "html".toList = []
      · left
        simp only [hh, ne_eq, not_true_eq_false, if_false, Option.some.injEq] at h
        exact ⟨hh, h.symm⟩
      · right
        refine ⟨hh, ?_⟩
        simp only [ne_eq, hh, not_false_eq_true, if_true] at h
        rcases hct : CreateTemp os fs "*.html".toList with ⟨r, fs1⟩
        rw [hct] at h
        cases r with
        | error e =>
          simp only [Option.some.injEq] at h
          subst h
          simp at hc
        | ok name =>
          refine ⟨name, fs1, rfl, ?_⟩
          simp only [Option.some.injEq] at h
          cases hw : os.write name (processInput.Request.Form.Get "html".toList) with
          | some ne =>
            simp only [WriteString, hw] at h
            subst h
            simp [deferRemove_calls, Outcome.creating_calls] at hc
          | none =>
            simp only [WriteString, hw] at h
            exact ⟨rfl, h.symm⟩

/-- Everything the claims need about an `exec` invocation made by
`processRequest` and about the outcome that goes with it. -/
theorem processRequest_calls (os : OS) (fs : Files) (processInput : ProcessInput)
    (o : Outcome) (c : Call)
    (h : processRequest os fs processInput = some o) (hc : c ∈ o.calls) :
    ∃ args input outputFile,
      processInput.Request.parseErr = none ∧
      argsFromValues processInput.Request.Form = some args ∧
      c.command = processInput.Binnary ∧
      c.args = args ++ [input, outputFile] ∧
      o.calls = [c] ∧
      (processInput.Request.Form.Get "html".toList = [] →
        input = processInput.Request.Form.Get "url".toList ∧ o.created = [outputFile]) ∧
      (processInput.Request.Form.Get "html".toList ≠ [] →
        o.created = [input, outputFile] ∧
        Files.read c.files input = some (processInput.Request.Form.Get "html".toList) ∧
        ".html".toList <:+ input ∧ Files.read fs input = none) ∧
      (∀ e, (os.run c.command c.args c.files).err = some e →
        o.ret = .error (Wrap (Wrap e ("failed to execute ".toList
          ++ (os.run c.command c.args c.files).stderr)) "failed to execute".toList)) ∧
      ((os.run c.command c.args c.files).err = none →
        ∀ content, Files.read (os.run c.command c.args c.files).files outputFile = some content →
          o.ret = .ok content) := by
  obtain ⟨hp, args, ha, hcase⟩ := processRequest_cases os fs processInput o c h hc
  rcases hcase with ⟨hh, ho⟩ | ⟨hh, name, fs1, hct, hw, ho⟩
  · subst ho
    obtain ⟨_, outputFile, fs2, _, hceq, hcalls, hcreated, herr, hok⟩ :=
      processRequestRest_calls os fs processInput args _ c hc
    refine ⟨args, _, outputFile, hp, ha, by rw [hceq], by rw [hceq], hcalls,
      fun _ => ⟨rfl, hcreated⟩, fun hne => absurd hh hne, herr, hok⟩
  · subst ho
    have hc' : c ∈ (processRequestRest os
        (Files.put fs1 name (processInput.Request.Form.Get "html".toList))
        processInput args name).calls := by
      rw [deferRemove_calls, Outcome.creating_calls] at hc
      exact hc
    obtain ⟨_, outputFile, fs2, hct2, hceq, hcalls, hcreated, herr, hok⟩ :=
      processRequestRest_calls os _ processInput args name c hc'
    obtain ⟨hnew, _, r, hname⟩ := CreateTemp_ok hct
    obtain ⟨hnew2, hfs2, _⟩ := CreateTemp_ok hct2
    have hne : name ≠ outputFile := by
      intro e
      rw [← e, Files.read_put_self] at hnew2
      simp at hnew2
    refine ⟨args, name, outputFile, hp, ha, by rw [hceq], by rw [hceq], ?_,
      fun hemp => absurd hemp hh, fun _ => ⟨?_, ?_, ?_, hnew⟩, ?_, ?_⟩
    · rw [deferRemove_calls, Outcome.creating_calls]
      exact hcalls
    · rw [deferRemove_created, Outcome.creating_created, hcreated]
    · rw [hceq]
      simp only
      rw [hfs2, Files.read_put_ne _ _ _ _ hne, Files.read_put_self]
    · rw [hname, splitLastStar_html]
      exact List.suffix_append _ _
    · intro e he
      rw [deferRemove_ret, Outcome.creating_ret]
      exact herr e he
    · intro hnone content hcontent
      rw [deferRemove_ret, Outcome.creating_ret]
      exact hok hnone content hcontent

/-- The temporary files that `processRequest` can have created, by the way it
returned. -/
theorem processRequest_created_cases (os : OS) (fs : Files) (processInput : ProcessInput)
    (o : Outcome) (h : processRequest os fs processInput = some o) :
    o.created = [] ∨
      (∃ args input, o = processRequestRest os fs processInput args input) ∨
      (∃ name fs1 o', CreateTemp os fs "*.html".toList = (.ok name, fs1) ∧
        o = deferRemove os name (Outcome.creating name o') ∧
        (o'.created = [] ∨ ∃ args html,
          o' = processRequestRest os (Files.put fs1 name html) processInput args name)) := by
  unfold processRequest at h
  cases hp : processInput.Request.parseErr with
  | some e =>
    simp only [hp, Option.some.injEq] at h
    subst h
    exact Or.inl rfl
  | none =>
    simp only [hp] at h
    cases ha : argsFromValues processInput.Request.Form with
    | none => simp [ha] at h
    | some args =>
      simp only [ha] at h
      by_cases hh : processInput.Request.Form.Get "html".toList = []
      · simp only [hh, ne_eq, not_true_eq_false, if_false, Option.some.injEq] at h
        exact Or.inr (Or.inl ⟨args, _, h.symm⟩)
      · simp only [ne_eq, hh, not_false_eq_true, if_true] at h
        rcases hct : CreateTemp os fs "*.html".toList with ⟨r, fs1⟩
        rw [hct] at h
        cases r with
        | error e =>
          simp only [Option.some.injEq] at h
          subst h
          exact Or.inl rfl
        | ok name =>
          simp only [Option.some.injEq] at h
          refine Or.inr (Or.inr ⟨name, fs1, _, rfl, h.symm, ?_⟩)
          cases hw : os.write name (processInput.Request.Form.Get "html".toList) with
          | some ne =>
            simp only [WriteString, hw]
            exact Or.inl trivial
          | none =>
            simp only [WriteString, hw]
            exact Or.inr ⟨args, _, rfl⟩

/-- A temporary file created by `processRequest` did not exist before, and
when its removal succeeds it does not exist when `processRequest` returns. -/
theorem processRequest_created (os : OS) (fs : Files) (processInput : ProcessInput)
    (o : Outcome) (name : Str) (h : processRequest os fs processInput = some o)
    (hname : name ∈ o.created) :
    Files.read fs name = none ∧
      ((∀ fs', os.remove name fs' = none) → Files.read o.files name = none) := by
  rcases processRequest_created_cases os fs processInput o h with
    hnil | ⟨args, input, ho⟩ | ⟨html, fs1, o', hct, ho, ho'⟩
  · rw [hnil] at hname
    simp at hname
  · subst ho
    exact ⟨processRequestRest_created_new os fs processInput args input name hname,
      processRequestRest_created os fs processInput args input name hname⟩
  · subst ho
    obtain ⟨hnew, hfs1, _⟩ := CreateTemp_ok hct
    rw [deferRemove_created, Outcome.creating_created, List.mem_cons] at hname
    rcases hname with hx | hx
    · subst hx
      exact ⟨hnew, fun hrm => deferRemove_read_self os name _ hrm⟩
    · rcases ho' with hnil | ⟨args, data, ho'⟩
      · rw [hnil] at hx
        simp at hx
      · subst ho'
        have hbefore := processRequestRest_created_new os _ processInput args html name hx
        have hne : name ≠ html := by
          intro e
          rw [e, Files.read_put_self] at hbefore
          simp at hbefore
        refine ⟨?_, fun hrm => ?_⟩
        · rw [Files.read_put_ne _ _ _ _ hne, hfs1, Files.read_put_ne _ _ _ _ hne] at hbefore
          exact hbefore
        · apply deferRemove_read_none
          rw [Outcome.creating_files]
          exact processRequestRest_created os _ processInput args html name hx hrm

theorem handlePdf_eq_some {a : Application} {os : OS} {fs : Files} {r : Request} {s : Served}
    (h : handlePdf a os fs r = some s) :
    processRequest os fs ⟨r, "*.pdf".toList, a.WkHTMLToPdf⟩ = some s.outcome ∧
      s.response = respond "application/pdf".toList s.outcome.ret := by
  unfold handlePdf at h
  split at h
  · simp at h
  · next o ho =>
    simp only [Option.some.injEq] at h
    subst h
    exact ⟨ho, rfl⟩

theorem handleJpg_eq_some {a : Application} {os : OS} {fs : Files} {r : Request} {s : Served}
    (h : handleJpg a os fs r = some s) :
    processRequest os fs ⟨r, "*.jpg".toList, a.WkHTMLToImage⟩ = some s.outcome ∧
      s.response = respond "image/jpeg".toList s.outcome.ret := by
  unfold handleJpg at h
  split at h
  · simp at h
  · next o ho =>
    simp only [Option.some.injEq] at h
    subst h
    exact ⟨ho, rfl⟩

/-- Both handlers call `processRequest` on the request, with some pattern,
binary and content type. -/
theorem handler_eq_some {a : Application} {os : OS} {fs : Files} {r : Request} {s : Served}
    (h : handlePdf a os fs r = some s ∨ handleJpg a os fs r = some s) :
    ∃ pattern binary contentType,
      processRequest os fs ⟨r, pattern, binary⟩ = some s.outcome ∧
      s.response = respond contentType s.outcome.ret := by
  rcases h with h | h
  · exact ⟨_, _, _, handlePdf_eq_some h⟩
  · exact ⟨_, _, _, handleJpg_eq_some h⟩

theorem stderr_infix_body (stderr e : Str) :
    stderr <:+: Wrap (Wrap e ("failed to execute ".toList ++ stderr)) "failed to execute".toList
      ++ "\n".toList :=
  ⟨"failed to execute".toList ++ ": ".toList ++ "failed to execute ".toList,
    ": ".toList ++ e ++ "\n".toList, by simp [Wrap]⟩

/-! ## Claims on `argsFromValues` -/

/-- C1, as stated, fails: the field `options[<name>]` whose name is `a`, line
feed, `b` has a non-empty name and the value `v`, and `argsFromValues` returns
the empty list, which holds no token `--<name>`. The `.` of the pattern does
not match a line feed. -/
theorem C1_counterexample :
    argsFromValues [("options[".toList ++ "a\nb".toList ++ "]".toList, ["v".toList])] = some []
      ∧ "a\nb".toList ≠ [] := by
  decide

/-- C1, amended: in a submitted form (every field carries at least one value),
a field named `options[<name>]`, with a non-empty name that contains no line
feed and with first value `v`, contributes the token `--<name>` to the list
returned by `argsFromValues`, right after the tokens of the fields visited
before it; when `v` is non-empty the next token is `v`, and when `v` is empty
the next tokens are those of the fields visited after it. -/
theorem C1_option_field_translated (before after : Values) (name v : Str) (more : List Str)
    (hne : name ≠ []) (hnl : '\n' ∉ name)
    (hsub : ∀ kv ∈ before ++ after, kv.2 ≠ []) :
    ∃ pre post, argsFromValues before = some pre ∧ argsFromValues after = some post ∧
      argsFromValues (before ++ ("options[".toList ++ name ++ "]".toList, v :: more) :: after)
        = some (pre ++ ("--".toList ++ name) :: (if v = [] then post else v :: post)) := by
  obtain ⟨pre, hpre⟩ := argsFromValues_isSome before
    (fun kv hkv => hsub kv (List.mem_append_left _ hkv))
  obtain ⟨post, hpost⟩ := argsFromValues_isSome after
    (fun kv hkv => hsub kv (List.mem_append_right _ hkv))
  refine ⟨pre, post, hpre, hpost, ?_⟩
  rw [argsFromValues_append, argsFromValues_cons, argsFromValuesStep_option name v more hne hnl,
    hpre, hpost]
  by_cases hv : v = [] <;> simp [hv]

/-- C1, amended, at the form `url=u&options[foo]=bar&options[flag]=`. -/
theorem C1_option_field_translated_witness :
    ∃ pre post, argsFromValues [("url".toList, ["u".toList])] = some pre ∧
      argsFromValues [("options[flag]".toList, [[]])] = some post ∧
      argsFromValues ([("url".toList, ["u".toList])] ++
          ("options[".toList ++ "foo".toList ++ "]".toList, ["bar".toList]) ::
            [("options[flag]".toList, [[]])])
        = some (pre ++ ("--".toList ++ "foo".toList) ::
            (if "bar".toList = [] then post else "bar".toList :: post)) :=
  C1_option_field_translated [("url".toList, ["u".toList])] [("options[flag]".toList, [[]])]
    "foo".toList "bar".toList [] (by decide) (by decide) (by decide)

/-- C9, as stated, fails: the names `xoptions[a]` and `options[a]z` are not of
the form `options[<name>]`, and each of them adds the argument `--a` (and its
value). The pattern is not anchored. -/
theorem C9_counterexample :
    argsFromValues [("xoptions[a]".toList, ["1".toList])] = some ["--a".toList, "1".toList]
      ∧ argsFromValues [("options[a]z".toList, ["1".toList])] = some ["--a".toList, "1".toList]
      ∧ argsFromValues [] = some []
      ∧ (¬ ∃ name : Str, "xoptions[a]".toList = "options[".toList ++ name ++ "]".toList)
      ∧ (¬ ∃ name : Str, "options[a]z".toList = "options[".toList ++ name ++ "]".toList) := by
  refine ⟨by decide, by decide, by decide, ?_, ?_⟩
  · rintro ⟨name, h⟩
    have := congrArg List.head? h
    simp at this
  · rintro ⟨name, h⟩
    have := congrArg (fun l => l.reverse.head?) h
    simp at this

/-- C9, amended: a field whose name contains nowhere the text `options[`
followed by a non-empty run of characters other than line feed followed by `]`
(for example `url`, `html`, `options[]`) adds no argument to the list returned
by `argsFromValues`: the list is the one of the form without that field. -/
theorem C9_other_fields_ignored (before after : Values) (key : Str) (value : List Str)
    (hkey : ∀ a g b : Str, g ≠ [] → '\n' ∉ g →
      key ≠ a ++ "options[".toList ++ g ++ "]".toList ++ b) :
    argsFromValues (before ++ (key, value) :: after) = argsFromValues (before ++ after) := by
  have hnone : optionsRe2FindStringSubmatch1 key = none := by
    cases hf : optionsRe2FindStringSubmatch1 key with
    | none => rfl
    | some g =>
      obtain ⟨h1, h2, a, b, hab⟩ := optionsRe2_sound hf
      exact absurd hab (hkey a g b h1 h2)
  rw [argsFromValues_append, argsFromValues_append, argsFromValues_cons,
    argsFromValuesStep_unmatched (key, value) hnone]
  cases argsFromValues before with
  | none => rfl
  | some x => cases argsFromValues after <;> simp

/-- C9, amended, at the field `url` between two option fields. -/
theorem C9_other_fields_ignored_witness :
    argsFromValues ([("options[a]".toList, ["1".toList])] ++
        ("url".toList, ["http://example.com".toList]) :: [("options[b]".toList, [[]])])
      = argsFromValues ([("options[a]".toList, ["1".toList])] ++ [("options[b]".toList, [[]])]) :=
  C9_other_fields_ignored [("options[a]".toList, ["1".toList])] [("options[b]".toList, [[]])]
    "url".toList ["http://example.com".toList] (by
      intro a g b _ _ h
      have hlen := congrArg List.length h
      simp at hlen
      omega)

/-- C10, as stated, fails: the field `options[]` (empty name) submitted twice,
and the field `options[<name>]` with the name `a`, line feed, `b` submitted
twice, are not translated at all, so no token `--<name>` is emitted. -/
theorem C10_counterexample :
    argsFromValues [("options[]".toList, ["x".toList, "y".toList])] = some []
      ∧ argsFromValues [("options[a\nb]".toList, ["x".toList, "y".toList])] = some [] := by
  decide

/-- C10, amended: the values after the first of a field never matter, that is,
two forms that differ only in the values after the first of some field give
equal argument lists for the same iteration order; and a field
`options[<name>]` whose name is non-empty and free of line feeds, submitted
with any number of further values, emits `--<name>` once, followed by the first
value alone when that is non-empty. -/
theorem C10_only_first_value_used (before after : Values) (name v : Str) (more more' : List Str)
    (hne : name ≠ []) (hnl : '\n' ∉ name) :
    (∀ key : Str, argsFromValues (before ++ (key, v :: more) :: after)
        = argsFromValues (before ++ (key, v :: more') :: after))
      ∧ argsFromValues [("options[".toList ++ name ++ "]".toList, v :: more)]
        = some (("--".toList ++ name) :: (if v = [] then [] else [v])) := by
  constructor
  · intro key
    have hstep : argsFromValuesStep [] (key, v :: more) = argsFromValuesStep [] (key, v :: more') := by
      simp [argsFromValuesStep]
    rw [argsFromValues_append, argsFromValues_append, argsFromValues_cons, argsFromValues_cons,
      hstep]
  · rw [argsFromValues_cons, argsFromValuesStep_option name v more hne hnl]
    simp [argsFromValues]

/-- C10, amended, at `options[zoom]=2&options[zoom]=3&options[zoom]=4`
against `options[zoom]=2`. -/
theorem C10_only_first_value_used_witness :
    (∀ key : Str, argsFromValues ([("url".toList, ["u".toList])] ++
          (key, "2".toList :: ["3".toList, "4".toList]) :: [])
        = argsFromValues ([("url".toList, ["u".toList])] ++ (key, "2".toList :: []) :: []))
      ∧ argsFromValues [("options[".toList ++ "zoom".toList ++ "]".toList,
          "2".toList :: ["3".toList, "4".toList])]
        = some (("--".toList ++ "zoom".toList) ::
            (if "2".toList = [] then [] else ["2".toList])) :=
  C10_only_first_value_used [("url".toList, ["u".toList])] [] "zoom".toList "2".toList
    ["3".toList, "4".toList] [] (by decide) (by decide)

/-! ## Claims on `processRequest`, `exec` and the handlers -/

/-- C2: for every `/pdf` or `/jpg` request that reaches the subprocess call,
the argument list handed to `exec` is the translated options followed by
exactly two more elements, the resolved input (the `url` field, or the path of
the html temporary file when html is submitted) and then the path of the
temporary output file; for the form `url=http://example.com` with
`options[grayscale]=`, in either iteration order, the list is exactly
`--grayscale`, `http://example.com`, output path. -/
theorem C2_exec_argument_list (a : Application) (os : OS) (fs : Files) (r : Request)
    (s : Served) (c : Call)
    (h : handlePdf a os fs r = some s ∨ handleJpg a os fs r = some s)
    (hc : c ∈ s.outcome.calls) :
    ∃ args input outputFile,
      argsFromValues r.Form = some args ∧
      c.args = args ++ [input, outputFile] ∧
      s.outcome.calls = [c] ∧
      (r.Form.Get "html".toList = [] →
        input = r.Form.Get "url".toList ∧ s.outcome.created = [outputFile]) ∧
      (r.Form.Get "html".toList ≠ [] → s.outcome.created = [input, outputFile]) ∧
      (r.Form = sampleRequest.Form ∨ r.Form = sampleRequest.Form.reverse →
        c.args = ["--grayscale".toList, "http://example.com".toList, outputFile]) := by
  obtain ⟨pattern, binary, contentType, hp, _⟩ := handler_eq_some h
  obtain ⟨args, input, outputFile, _, ha, _, hargs, hcalls, hurl, hhtml, _, _⟩ :=
    processRequest_calls os fs _ s.outcome c hp hc
  refine ⟨args, input, outputFile, ha, hargs, hcalls, hurl, fun hne => (hhtml hne).1, ?_⟩
  intro hform
  have hev : argsFromValues r.Form = some ["--grayscale".toList]
      ∧ r.Form.Get "html".toList = [] ∧ r.Form.Get "url".toList = "http://example.com".toList := by
    rcases hform with hf | hf <;> rw [hf] <;> decide
  have hargs' : args = ["--grayscale".toList] := by
    have := ha.symm.trans hev.1
    simpa using this
  rw [hargs, hargs', (hurl hev.2.1).1, hev.2.2]
  rfl

/-- C3, as stated, fails: a request whose query is `a=1;b=2` has neither `url`
nor `html`, its form does not parse, and `processRequest` returns the parse
error instead of `url or html is required`. -/
theorem C3_counterexample :
    (processRequest sampleOS []
        ⟨⟨some "invalid semicolon separator in query".toList, []⟩,
          "*.pdf".toList, "wkhtmltopdf".toList⟩).map (fun o => o.ret)
      = some (.error "failed to parse form: invalid semicolon separator in query".toList)
    ∧ Values.Get [] "html".toList = [] ∧ Values.Get [] "url".toList = [] := by
  refine ⟨rfl, rfl, rfl⟩

/-- C3, amended: for every request whose form parses without error (so that
every field carries at least one value) and in which the `html` field is absent
or empty and the `url` field is absent or empty, `processRequest` returns the
error `url or html is required`, has created no temporary file, has not invoked
`exec`, and leaves the files as they were. -/
theorem C3_input_required (os : OS) (fs : Files) (processInput : ProcessInput)
    (hparse : processInput.Request.parseErr = none)
    (hsub : ∀ kv ∈ processInput.Request.Form, kv.2 ≠ [])
    (hhtml : processInput.Request.Form.Get "html".toList = [])
    (hurl : processInput.Request.Form.Get "url".toList = []) :
    processRequest os fs processInput
      = some ⟨.error "url or html is required".toList, fs, [], []⟩ := by
  obtain ⟨args, ha⟩ := argsFromValues_isSome _ hsub
  simp only [processRequest, hparse, ha]
  rw [if_neg (fun h => h hhtml), processRequestRest, if_pos hurl]

/-- C3, amended, at the request `options[grayscale]=&url=`. -/
theorem C3_input_required_witness :
    processRequest sampleOS [("/tmp/old".toList, [])]
        ⟨⟨none, [("options[grayscale]".toList, [[]]), ("url".toList, [[]])]⟩,
          "*.pdf".toList, "wkhtmltopdf".toList⟩
      = some ⟨.error "url or html is required".toList, [("/tmp/old".toList, [])], [], []⟩ :=
  C3_input_required sampleOS [("/tmp/old".toList, [])]
    ⟨⟨none, [("options[grayscale]".toList, [[]]), ("url".toList, [[]])]⟩,
      "*.pdf".toList, "wkhtmltopdf".toList⟩ rfl (by decide) (by decide) (by decide)

/-- C4, as stated, fails, in four ways. The request with query
`html=<p>x</p>&a=1;b=2` has a non-empty `html` field, its form does not parse,
and `processRequest` returns without creating any temporary file. For the
request `html=<p>x</p>&url=http://example.com`: when no temporary file can be
created none is created; when the write to the html file fails the file that
was created does not hold the html and `exec` is never invoked; and when the
html file is created and written and the output file cannot be created, `exec`
is never invoked, so the path is passed to nothing. -/
theorem C4_counterexample :
    ((processRequest sampleOS []
        ⟨⟨some "invalid semicolon separator in query".toList,
            [("html".toList, ["<p>x</p>".toList])]⟩,
          "*.pdf".toList, "wkhtmltopdf".toList⟩).map (fun o => (o.created, o.calls.length))
      = some ([], 0)
    ∧ Values.Get [("html".toList, ["<p>x</p>".toList])] "html".toList ≠ [])
    ∧ ((processRequest sampleFullDiskOS [] sampleHtmlInput).map
        (fun o => (o.created, o.calls.length)) = some ([], 0)
      ∧ sampleHtmlInput.Request.Form.Get "html".toList ≠ [])
    ∧ ((processRequest sampleWriteFailOS [] sampleHtmlInput).map
        (fun o => (o.created, o.calls.length)) = some (["/tmp/42.html".toList], 0)
      ∧ (WriteString sampleWriteFailOS [("/tmp/42.html".toList, [])] "/tmp/42.html".toList
          "<p>x</p>".toList).2 = [("/tmp/42.html".toList, [])])
    ∧ (processRequest sampleNoOutputOS [] sampleHtmlInput).map
        (fun o => (o.created, o.calls.length)) = some (["/tmp/42.html".toList], 0) := by
  refine ⟨⟨rfl, by decide⟩, ⟨rfl, by decide⟩, ⟨rfl, rfl⟩, rfl⟩

/-- C4, amended: for every request whose form parses without error:
(1) if the `html` field is non-empty (whether or not `url` is set) and the html
temporary file can be created and written, `processRequest` returns, the first
file it created is a new file whose name ends in `.html`, and if the output
temporary file can be created too, it created exactly these two files and
invoked `exec` exactly once, with the translated options, then the path of the
html file (not the url), then the output path, the html file holding exactly
the submitted html string at that moment;
(2) if the `html` field is empty, the `url` field is not and the output
temporary file can be created, `processRequest` invoked `exec` exactly once,
with the `url` field unchanged as the input argument;
(3) whenever `processRequest` invokes `exec`, the input argument is, for a
non-empty `html` field, the path of a new `.html` file created by
`processRequest` and holding exactly the submitted html string, and for an
empty `html` field the `url` field unchanged. -/
theorem C4_html_input (os : OS) (fs : Files) (processInput : ProcessInput) (args : List Str)
    (hparse : processInput.Request.parseErr = none)
    (hargs : argsFromValues processInput.Request.Form = some args) :
    (processInput.Request.Form.Get "html".toList ≠ [] →
      ∀ name fs1, CreateTemp os fs "*.html".toList = (.ok name, fs1) →
        os.write name (processInput.Request.Form.Get "html".toList) = none →
        ".html".toList <:+ name ∧ Files.read fs name = none ∧
        ∃ o, processRequest os fs processInput = some o ∧ o.created.head? = some name ∧
          ∀ outputFile fs2,
            CreateTemp os (Files.put fs1 name (processInput.Request.Form.Get "html".toList))
              processInput.TempPattern = (.ok outputFile, fs2) →
            o.created = [name, outputFile] ∧
            o.calls = [⟨processInput.Binnary, args ++ [name, outputFile], fs2⟩] ∧
            Files.read fs2 name = some (processInput.Request.Form.Get "html".toList))
    ∧ (processInput.Request.Form.Get "html".toList = [] →
      processInput.Request.Form.Get "url".toList ≠ [] →
      ∀ outputFile fs1, CreateTemp os fs processInput.TempPattern = (.ok outputFile, fs1) →
        ∃ o, processRequest os fs processInput = some o ∧ o.created = [outputFile] ∧
          o.calls = [⟨processInput.Binnary,
            args ++ [processInput.Request.Form.Get "url".toList, outputFile], fs1⟩])
    ∧ (∀ o c, processRequest os fs processInput = some o → c ∈ o.calls →
      (processInput.Request.Form.Get "html".toList ≠ [] →
        ∃ name outputFile, c.args = args ++ [name, outputFile] ∧
          o.created = [name, outputFile] ∧ ".html".toList <:+ name ∧
          Files.read fs name = none ∧
          Files.read c.files name = some (processInput.Request.Form.Get "html".toList)) ∧
      (processInput.Request.Form.Get "html".toList = [] →
        ∃ outputFile,
          c.args = args ++ [processInput.Request.Form.Get "url".toList, outputFile])) := by
  refine ⟨?_, ?_, ?_⟩
  · intro hhtml name fs1 hcreate hwrite
    have ho := processRequest_of_html os fs fs1 processInput args name hparse hargs hhtml
      hcreate hwrite
    obtain ⟨hnew, _, rnd, hname⟩ := CreateTemp_ok hcreate
    have hne : name ≠ [] := by
      intro e
      have hs : ".html".toList <:+ name := by
        rw [hname, splitLastStar_html]
        exact List.suffix_append _ _
      rw [e] at hs
      have := List.IsSuffix.length_le hs
      simp at this
    refine ⟨?_, hnew, _, ho, ?_, ?_⟩
    · rw [hname, splitLastStar_html]
      exact List.suffix_append _ _
    · rw [deferRemove_created, Outcome.creating_created]
      rfl
    · intro outputFile fs2 hct2
      obtain ⟨hcalls, hcreated, _, _⟩ :=
        processRequestRest_of_create os _ fs2 processInput args name outputFile hne hct2
      obtain ⟨hnew2, hfs2, _⟩ := CreateTemp_ok hct2
      have hno : name ≠ outputFile := by
        intro e
        rw [← e, Files.read_put_self] at hnew2
        simp at hnew2
      refine ⟨?_, ?_, ?_⟩
      · rw [deferRemove_created, Outcome.creating_created, hcreated]
      · rw [deferRemove_calls, Outcome.creating_calls, hcalls]
      · rw [hfs2, Files.read_put_ne _ _ _ _ hno, Files.read_put_self]
  · intro hhtml hurl outputFile fs1 hct
    obtain ⟨hcalls, hcreated, _, _⟩ :=
      processRequestRest_of_create os fs fs1 processInput args _ outputFile hurl hct
    exact ⟨_, processRequest_of_url os fs processInput args hparse hargs hhtml,
      hcreated, hcalls⟩
  · intro o c ho hc
    obtain ⟨args', input, outputFile, _, ha, _, hcargs, _, hu, hh, _, _⟩ :=
      processRequest_calls os fs processInput o c ho hc
    have hargs' : args' = args := by
      have := ha.symm.trans hargs
      simpa using this
    subst hargs'
    refine ⟨fun hhtml => ?_, fun hemp => ⟨outputFile, by rw [hcargs, (hu hemp).1]⟩⟩
    obtain ⟨hcreated, hread, hsuf, hnew⟩ := hh hhtml
    exact ⟨input, outputFile, hcargs, hcreated, hsuf, hnew, hread⟩

/-- C2 at the request `url=http://example.com&options[grayscale]=` sent to
`/pdf`. -/
theorem C2_exec_argument_list_witness :
    ∃ args input outputFile,
      argsFromValues sampleRequest.Form = some args ∧
      sampleCall.args = args ++ [input, outputFile] ∧
      sampleServed.outcome.calls = [sampleCall] ∧
      (sampleRequest.Form.Get "html".toList = [] →
        input = sampleRequest.Form.Get "url".toList ∧
          sampleServed.outcome.created = [outputFile]) ∧
      (sampleRequest.Form.Get "html".toList ≠ [] →
        sampleServed.outcome.created = [input, outputFile]) ∧
      (sampleRequest.Form = sampleRequest.Form ∨
          sampleRequest.Form = sampleRequest.Form.reverse →
        sampleCall.args = ["--grayscale".toList, "http://example.com".toList, outputFile]) :=
  C2_exec_argument_list sampleApp sampleOS [] sampleRequest sampleServed sampleCall
    (Or.inl rfl) (List.mem_singleton.mpr rfl)

/-- C4, amended, at the request `html=<p>x</p>&url=http://example.com` and at
the request `url=http://example.com&options[grayscale]=`. -/
theorem C4_html_input_witness :
    (".html".toList <:+ "/tmp/42.html".toList ∧ Files.read [] "/tmp/42.html".toList = none ∧
      ∃ o, processRequest sampleOS [] sampleHtmlInput = some o ∧
        o.created = ["/tmp/42.html".toList, "/tmp/42.pdf".toList] ∧
        o.calls = [sampleHtmlCall] ∧
        Files.read sampleHtmlCall.files "/tmp/42.html".toList = some "<p>x</p>".toList)
    ∧ (∃ o, processRequest sampleOS []
          ⟨sampleRequest, "*.pdf".toList, "wkhtmltopdf".toList⟩ = some o ∧
        o.created = ["/tmp/42.pdf".toList] ∧ o.calls = [sampleCall]) := by
  constructor
  · obtain ⟨hsuf, hnew, o, ho, _, hrest⟩ :=
      (C4_html_input sampleOS [] sampleHtmlInput [] rfl rfl).1 (by decide)
        "/tmp/42.html".toList [("/tmp/42.html".toList, [])] rfl rfl
    obtain ⟨hcreated, hcalls, hread⟩ := hrest "/tmp/42.pdf".toList sampleHtmlCall.files rfl
    exact ⟨hsuf, hnew, o, ho, hcreated, hcalls, hread⟩
  · exact (C4_html_input sampleOS [] ⟨sampleRequest, "*.pdf".toList, "wkhtmltopdf".toList⟩
      ["--grayscale".toList] rfl rfl).2.1 (by decide) (by decide)
        "/tmp/42.pdf".toList sampleCall.files rfl

/-- C5, as stated, fails: `processRequest` discards the error of `os.Remove`.
For the request `url=http://example.com&options[grayscale]=`, when the removal
of the output file fails (as it does when the subprocess has put a directory
that is not empty at that path), the file that `processRequest` created is
still there when it returns. -/
theorem C5_counterexample :
    (processRequest sampleStuckOS []
        ⟨sampleRequest, "*.pdf".toList, "wkhtmltopdf".toList⟩).map
      (fun o => (o.created, Files.read o.files "/tmp/42.pdf".toList))
      = some (["/tmp/42.pdf".toList], some "%PDF".toList) := by
  rfl

/-- C5, amended: whichever way `processRequest` returns (parse failure, html
creation or write failure, missing input, output-file creation failure,
subprocess failure, output read failure, success), every temporary file that it
created did not exist before the call, and, provided `os.Remove` succeeds on
that file, does not exist when `processRequest` returns. -/
theorem C5_temp_files_removed (os : OS) (fs : Files) (processInput : ProcessInput)
    (o : Outcome) (name : Str) (h : processRequest os fs processInput = some o)
    (hname : name ∈ o.created) (hrm : ∀ fs', os.remove name fs' = none) :
    Files.read fs name = none ∧ Files.read o.files name = none :=
  ⟨(processRequest_created os fs processInput o name h hname).1,
    (processRequest_created os fs processInput o name h hname).2 hrm⟩

/-- C5, amended, at the request `html=<p>x</p>&url=http://example.com`, for
which an html file and an output file are created: neither exists afterwards. -/
theorem C5_temp_files_removed_witness :
    processRequest sampleOS [] sampleHtmlInput = some sampleHtmlOutcome ∧
      sampleHtmlOutcome.created = ["/tmp/42.html".toList, "/tmp/42.pdf".toList] ∧
      Files.read sampleHtmlOutcome.files "/tmp/42.html".toList = none ∧
      Files.read sampleHtmlOutcome.files "/tmp/42.pdf".toList = none :=
  ⟨rfl, rfl,
    (C5_temp_files_removed sampleOS [] sampleHtmlInput sampleHtmlOutcome
      "/tmp/42.html".toList rfl (List.mem_cons_self _ _) (fun _ => rfl)).2,
    (C5_temp_files_removed sampleOS [] sampleHtmlInput sampleHtmlOutcome
      "/tmp/42.pdf".toList rfl (List.mem_cons_of_mem _ (List.mem_singleton.mpr rfl))
      (fun _ => rfl)).2⟩

/-- C6: for every subprocess run that fails, `exec` returns an error (and no
bytes) whose message contains the captured standard error; and when the run
made for a `/pdf` or `/jpg` request fails, the handler answers with status 500
and a body that contains that standard error text. -/
theorem C6_failed_run_reported (a : Application) (os : OS) (fs : Files) (r : Request)
    (s : Served) (c : Call) (e : Str)
    (h : handlePdf a os fs r = some s ∨ handleJpg a os fs r = some s)
    (hc : c ∈ s.outcome.calls)
    (hfail : (os.run c.command c.args c.files).err = some e) :
    (∀ (fs' : Files) (command : Str) (args : List Str) (e' : Str),
        (os.run command args fs').err = some e' →
        ∃ msg, (exec os fs' command args).1 = .error msg ∧
          (os.run command args fs').stderr <:+: msg) ∧
      s.response.status = StatusInternalServerError ∧
      (os.run c.command c.args c.files).stderr <:+: s.response.body := by
  refine ⟨?_, ?_⟩
  · intro fs' command args e' he'
    refine ⟨Wrap e' ("failed to execute ".toList ++ (os.run command args fs').stderr),
      by simp only [exec, he'], ?_⟩
    exact ⟨"failed to execute ".toList, ": ".toList ++ e', by simp [Wrap]⟩
  · obtain ⟨pattern, binary, contentType, hp, hresp⟩ := handler_eq_some h
    obtain ⟨_, _, _, _, _, _, _, _, _, _, herr, _⟩ :=
      processRequest_calls os fs _ s.outcome c hp hc
    rw [hresp, herr e hfail]
    exact ⟨rfl, stderr_infix_body _ _⟩

/-- C6 at the request `url=bad` sent to `/pdf`, whose run fails with
`exit status 1` and the standard error `Error: bad`. -/
theorem C6_failed_run_reported_witness :
    (∀ (fs' : Files) (command : Str) (args : List Str) (e' : Str),
        (sampleOS.run command args fs').err = some e' →
        ∃ msg, (exec sampleOS fs' command args).1 = .error msg ∧
          (sampleOS.run command args fs').stderr <:+: msg) ∧
      sampleBadServed.response.status = StatusInternalServerError ∧
      (sampleOS.run sampleBadCall.command sampleBadCall.args sampleBadCall.files).stderr
        <:+: sampleBadServed.response.body :=
  C6_failed_run_reported sampleApp sampleOS [] sampleBadRequest sampleBadServed sampleBadCall
    "exit status 1".toList (Or.inl rfl) (List.mem_singleton.mpr rfl) rfl

/-- C7: for every `/pdf` (respectively `/jpg`) request whose subprocess run
succeeds and whose output file can be read, the response has status 200, the
single header `Content-Type: application/pdf` (respectively `image/jpeg`) and
as body exactly the content of the temporary output file after the run (the
standard output of the subprocess plays no part), and the command that was run
is the configured PDF (respectively image) binary. -/
theorem C7_success_response (a : Application) (os : OS) (fs : Files) (r : Request)
    (s : Served) (c : Call) (outputFile content contentType binary : Str)
    (h : (handlePdf a os fs r = some s ∧ contentType = "application/pdf".toList
          ∧ binary = a.WkHTMLToPdf)
      ∨ (handleJpg a os fs r = some s ∧ contentType = "image/jpeg".toList
          ∧ binary = a.WkHTMLToImage))
    (hc : c ∈ s.outcome.calls)
    (hok : (os.run c.command c.args c.files).err = none)
    (hout : c.args.getLast? = some outputFile)
    (hread : Files.read (os.run c.command c.args c.files).files outputFile = some content) :
    s.response = ⟨StatusOK, [("Content-Type".toList, contentType)], content⟩ ∧
      c.command = binary ∧ outputFile ∈ s.outcome.created := by
  have key : ∀ pattern bin ct, processRequest os fs ⟨r, pattern, bin⟩ = some s.outcome →
      s.response = respond ct s.outcome.ret →
      s.response = ⟨StatusOK, [("Content-Type".toList, ct)], content⟩ ∧ c.command = bin
        ∧ outputFile ∈ s.outcome.created := by
    intro pattern bin ct hp hresp
    obtain ⟨args, input, out, _, _, hcmd, hargs, _, hu, hh, _, hsucc⟩ :=
      processRequest_calls os fs _ s.outcome c hp hc
    have hout' : out = outputFile := by
      rw [hargs] at hout
      simpa using hout
    subst hout'
    have hret := hsucc hok content hread
    refine ⟨by rw [hresp, hret]; rfl, hcmd, ?_⟩
    by_cases hhtml : r.Form.Get "html".toList = []
    · rw [(hu hhtml).2]; exact List.mem_singleton.mpr rfl
    · rw [(hh hhtml).1]; exact List.mem_cons_of_mem _ (List.mem_singleton.mpr rfl)
  rcases h with ⟨h, hct, hbin⟩ | ⟨h, hct, hbin⟩
  · obtain ⟨hp, hresp⟩ := handlePdf_eq_some h
    rw [hct, hbin]
    exact key _ _ _ hp hresp
  · obtain ⟨hp, hresp⟩ := handleJpg_eq_some h
    rw [hct, hbin]
    exact key _ _ _ hp hresp

/-- C7 at the request `url=http://example.com&options[grayscale]=`, sent to
`/pdf` and sent to `/jpg`. -/
theorem C7_success_response_witness :
    (sampleServed.response
        = ⟨StatusOK, [("Content-Type".toList, "application/pdf".toList)], "%PDF".toList⟩ ∧
      sampleCall.command = sampleApp.WkHTMLToPdf ∧
      "/tmp/42.pdf".toList ∈ sampleServed.outcome.created)
    ∧ (sampleJpgServed.response
        = ⟨StatusOK, [("Content-Type".toList, "image/jpeg".toList)], "%PDF".toList⟩ ∧
      sampleJpgCall.command = sampleApp.WkHTMLToImage ∧
      "/tmp/42.jpg".toList ∈ sampleJpgServed.outcome.created) :=
  ⟨C7_success_response sampleApp sampleOS [] sampleRequest sampleServed sampleCall
      "/tmp/42.pdf".toList "%PDF".toList "application/pdf".toList sampleApp.WkHTMLToPdf
      (Or.inl ⟨rfl, rfl, rfl⟩) (List.mem_singleton.mpr rfl) rfl rfl rfl,
    C7_success_response sampleApp sampleOS [] sampleRequest sampleJpgServed sampleJpgCall
      "/tmp/42.jpg".toList "%PDF".toList "image/jpeg".toList sampleApp.WkHTMLToImage
      (Or.inr ⟨rfl, rfl, rfl⟩) (List.mem_singleton.mpr rfl) rfl rfl rfl⟩

end Wkhtmltopdf
